import Mathlib

/-!
Shallow embedding of the flow-aggregation core of the repository
(files cyber/p1/traffic.py and cyber/p1/tagging.py).

Packets are modelled as records exposing the fields the Python code reads
through scapy: a capture timestamp (modelled as a rational number), the wire
length, and optional IP / TCP / UDP layers plus an ICMP-presence bit.
Python dictionaries are modelled as insertion-ordered association lists:
assignment to a present key updates the entry in place, assignment to an
absent key appends, and pop removes the entry.
-/

namespace Traffic

/-- TCP layer of a decoded packet: source port, destination port, and the
string rendering of the flag bits (scapy str(flags), e.g. "PA", "R", "FA"). -/
structure TCPLayer where
  sport : Nat
  dport : Nat
  flags : String
deriving DecidableEq

/-- UDP layer of a decoded packet: source and destination port. -/
structure UDPLayer where
  sport : Nat
  dport : Nat
deriving DecidableEq

/-- IP layer of a decoded packet: source and destination address, the IP
protocol number, and the TTL value. -/
structure IPLayer where
  src : String
  dst : String
  proto : Nat
  ttl : Nat
deriving DecidableEq

/-- A decoded packet: timestamp (float packet.time, modelled as a rational),
wire length (len(packet)), and the optional layers the code queries. -/
structure Packet where
  time : Rat
  len : Nat
  ip : Option IPLayer
  icmp : Bool
  tcp : Option TCPLayer
  udp : Option UDPLayer
deriving DecidableEq

/-- classify_protocol from traffic.py: ICMP first, then TCP with the
443/80 port heuristics, then UDP with the 53 heuristic, else "Otro". -/
def classify_protocol (packet : Packet) : String :=
  if packet.icmp then "ICMP"
  else
    match packet.tcp with
    | some t =>
      if t.sport = 443 ∨ t.dport = 443 then "HTTPS"
      else if t.sport = 80 ∨ t.dport = 80 then "HTTP"
      else "TCP"
    | none =>
      match packet.udp with
      | some u =>
        if u.sport = 53 ∨ u.dport = 53 then "DNS"
        else "UDP"
      | none => "Otro"

/-- The 5-tuple key returned by get_flow_key, in the source order
(ip_dst, port_dst, ip_src, port_src, protocol). -/
structure FlowKey where
  ip_dst : String
  port_dst : Nat
  ip_src : String
  port_src : Nat
  protocol : String
deriving DecidableEq

/-- get_flow_key from traffic.py: none when there is no IP layer; ports taken
from the TCP layer if present, else from the UDP layer, else 0/0. -/
def get_flow_key (packet : Packet) : Option FlowKey :=
  match packet.ip with
  | none => none
  | some ipl =>
    let protocol := classify_protocol packet
    match packet.tcp with
    | some t => some ⟨ipl.dst, t.dport, ipl.src, t.sport, protocol⟩
    | none =>
      match packet.udp with
      | some u => some ⟨ipl.dst, u.dport, ipl.src, u.sport, protocol⟩
      | none => some ⟨ipl.dst, 0, ipl.src, 0, protocol⟩

/-- The Flow class of traffic.py: mutable per-flow accumulator. -/
structure Flow where
  ip_src : String
  ip_dst : String
  port_src : Nat
  port_dst : Nat
  protocol : String
  packets : Nat
  bytes : Nat
  closed : Bool
  start_time : Option Rat
  end_time : Option Rat
deriving DecidableEq

/-- Flow.__init__ with the source argument order
(ip_dst, port_dst, ip_src, port_src, protocol). -/
def Flow.init (ip_dst : String) (port_dst : Nat) (ip_src : String)
    (port_src : Nat) (protocol : String) : Flow :=
  { ip_src := ip_src, ip_dst := ip_dst, port_src := port_src,
    port_dst := port_dst, protocol := protocol, packets := 0, bytes := 0,
    closed := false, start_time := none, end_time := none }

/-- Flow(*key): the constructor applied to the unpacked 5-tuple key. -/
def Flow.ofKey (k : FlowKey) : Flow :=
  Flow.init k.ip_dst k.port_dst k.ip_src k.port_src k.protocol

/-- The FIN/RST test in Flow.add_packet:
the character F or R occurs in str(flags). -/
def hasFinOrRst (flags : String) : Bool :=
  flags.data.contains 'F' || flags.data.contains 'R'

/-- Flow.add_packet from traffic.py: bump packet and byte counts, update the
start and end timestamps, and set closed when a TCP FIN or RST is seen. -/
def Flow.add_packet (f : Flow) (packet : Packet) : Flow :=
  let f1 := { f with packets := f.packets + 1, bytes := f.bytes + packet.len }
  let ts := packet.time
  let f2 := { f1 with start_time :=
    match f1.start_time with
    | none => some ts
    | some s => if ts < s then some ts else some s }
  let f3 := { f2 with end_time :=
    match f2.end_time with
    | none => some ts
    | some e => if e < ts then some ts else some e }
  match packet.tcp with
  | some t => if hasFinOrRst t.flags then { f3 with closed := true } else f3
  | none => f3

/-- Flow.duration from traffic.py. -/
def Flow.duration (f : Flow) : Rat :=
  match f.start_time, f.end_time with
  | some s, some e => e - s
  | _, _ => 0

/-- Flow.avg_packet_size from traffic.py. -/
def Flow.avg_packet_size (f : Flow) : Rat :=
  if 0 < f.packets then (f.bytes : Rat) / (f.packets : Rat) else 0

/-- Floor of a rational number, computed from numerator and denominator. -/
def ratFloor (q : Rat) : Int := Int.fdiv q.num (q.den : Int)

/-- The builtin round of Python on a non-negative number of digits:
round half to even, modelled on rationals. -/
def pyRound (q : Rat) (ndigits : Nat) : Rat :=
  let m : Rat := ((10 ^ ndigits : Nat) : Rat)
  let s := q * m
  let fl := ratFloor s
  let frac := s - (fl : Rat)
  let r : Int :=
    if frac < (1 : Rat) / 2 then fl
    else if (1 : Rat) / 2 < frac then fl + 1
    else if fl % 2 = 0 then fl else fl + 1
  ((r : Rat)) / m

/-- Values appearing in the dictionary built by Flow.to_dict. -/
inductive DVal where
  | vstr (s : String)
  | vnat (n : Nat)
  | vrat (q : Rat)
  | vbool (b : Bool)
  | vnone
deriving DecidableEq

/-- Flow.to_dict from traffic.py: the CSV row for one flow, as an ordered
list of column names paired with values. -/
def Flow.to_dict (f : Flow) : List (String × DVal) :=
  [("start_time",
     match f.start_time with
     | some t => DVal.vrat (pyRound t 4)
     | none => DVal.vnone),
   ("end_time",
     match f.end_time with
     | some t => DVal.vrat (pyRound t 4)
     | none => DVal.vnone),
   ("ip_dst", DVal.vstr f.ip_dst),
   ("port_dst", DVal.vnat f.port_dst),
   ("ip_src", DVal.vstr f.ip_src),
   ("port_src", DVal.vnat f.port_src),
   ("protocol", DVal.vstr f.protocol),
   ("packets", DVal.vnat f.packets),
   ("bytes", DVal.vnat f.bytes),
   ("avg_pkt_size", DVal.vrat (pyRound f.avg_packet_size 2)),
   ("duration_s", DVal.vrat (pyRound f.duration 4)),
   ("closed", DVal.vbool f.closed)]

/-- Keys of the flows dictionary in aggregate_flows: either the original
5-tuple key, or a renamed key (*key, idx) used to park a closed flow. -/
inductive DictKey where
  | orig (k : FlowKey)
  | renamed (k : FlowKey) (idx : Nat)
deriving DecidableEq

/-- The flows dictionary, as an insertion-ordered association list. -/
abbrev FlowTable : Type := List (DictKey × Flow)

/-- Dictionary membership test and read: the value stored at a key. -/
def lookupK (k : DictKey) : FlowTable → Option Flow
  | [] => none
  | e :: rest => if e.1 = k then some e.2 else lookupK k rest

/-- Point update of every entry carrying a given key (at most one in a
well-formed table); keeps the position of the entry. -/
def updAll (k : DictKey) (v : Flow) (st : FlowTable) : FlowTable :=
  st.map (fun e => if e.1 = k then (k, v) else e)

/-- Python dictionary assignment: update in place when the key is present,
append at the end otherwise. -/
def setValK (k : DictKey) (v : Flow) (st : FlowTable) : FlowTable :=
  if (lookupK k st).isSome then updAll k v st else st ++ [(k, v)]

/-- Python dictionary pop: remove the entry carrying the key. -/
def popK (k : DictKey) : FlowTable → FlowTable
  | [] => []
  | e :: rest => if e.1 = k then popK k rest else e :: popK k rest

/-- Largest index idx such that a renamed key (*k, idx) occurs in the table
(0 when none does); used to bound the index search of aggregate_flows. -/
def maxRenIdx (k : FlowKey) : FlowTable → Nat
  | [] => 0
  | e :: rest =>
    match e.1 with
    | DictKey.renamed k' i =>
        if k' = k then max i (maxRenIdx k rest) else maxRenIdx k rest
    | DictKey.orig _ => maxRenIdx k rest

/-- The keys of a table. -/
def keysOf (st : FlowTable) : List DictKey := st.map Prod.fst

/-- Total packet count over all values of the flows dictionary. -/
def sumPk (st : FlowTable) : Nat := (st.map (fun e => e.2.packets)).sum

def maxRenIdx_cons_le (k : FlowKey) (e : DictKey × Flow) (rest : FlowTable) :
    maxRenIdx k rest ≤ maxRenIdx k (e :: rest) := by
  show maxRenIdx k rest ≤ maxRenIdx k (e :: rest)
  rcases e with ⟨ke, fe⟩
  cases ke with
  | orig k0 => simp [maxRenIdx]
  | renamed k0 i =>
    by_cases h : k0 = k
    · simp [maxRenIdx, h]
    · simp [maxRenIdx, h]

def le_maxRenIdx_of_lookup_isSome (k : FlowKey) (i : Nat) :
    ∀ st : FlowTable, (lookupK (DictKey.renamed k i) st).isSome = true →
      i ≤ maxRenIdx k st := by
  intro st
  induction st with
  | nil => intro h; simp [lookupK] at h
  | cons e rest ih =>
    intro h
    rcases e with ⟨ke, fe⟩
    by_cases hk : ke = DictKey.renamed k i
    · subst hk
      simp [maxRenIdx]
    · rw [lookupK, if_neg hk] at h
      exact le_trans (ih h) (maxRenIdx_cons_le k _ rest)

def exists_renamed_free (k : FlowKey) (st : FlowTable) :
    ∃ i, (lookupK (DictKey.renamed k (i + 1)) st).isSome = false := by
  refine ⟨maxRenIdx k st, ?_⟩
  by_contra h
  have h' : (lookupK (DictKey.renamed k (maxRenIdx k st + 1)) st).isSome = true := by
    cases hh : (lookupK (DictKey.renamed k (maxRenIdx k st + 1)) st).isSome
    · exact absurd hh h
    · rfl
  have := le_maxRenIdx_of_lookup_isSome k (maxRenIdx k st + 1) st h'
  omega

/-- The while loop of aggregate_flows: the smallest index idx at least 1 such
that the renamed key (*key, idx) is absent from the flows dictionary. -/
def freshIdx (k : FlowKey) (st : FlowTable) : Nat :=
  Nat.find (exists_renamed_free k st) + 1

/-- One iteration of the loop body of aggregate_flows on a single packet:
skip packets without a flow key; if the open flow for the key is already
closed, pop it and park it at a fresh renamed key (appending at the end of
the dictionary); create a fresh flow if the key is now absent; finally add
the packet to the flow stored at the key. -/
def ingest (st : FlowTable) (packet : Packet) : FlowTable :=
  match get_flow_key packet with
  | none => st
  | some k =>
    let st1 :=
      match lookupK (DictKey.orig k) st with
      | some f =>
        if f.closed then
          let popped := popK (DictKey.orig k) st
          setValK (DictKey.renamed k (freshIdx k popped)) f popped
        else st
      | none => st
    let st2 :=
      match lookupK (DictKey.orig k) st1 with
      | none => setValK (DictKey.orig k) (Flow.ofKey k) st1
      | some _ => st1
    match lookupK (DictKey.orig k) st2 with
    | some f => setValK (DictKey.orig k) (f.add_packet packet) st2
    | none => st2

/-- aggregate_flows from traffic.py, over an already-decoded packet list:
fold the loop body over the packets and return list(flows.values()). -/
def aggregate_flows (packets : List Packet) : List Flow :=
  (packets.foldl ingest []).map Prod.snd

/-- One update of the protocol_counts dictionary in print_stats. -/
def bumpCount (acc : List (String × Nat)) (p : String) : List (String × Nat) :=
  if (acc.find? (fun e => e.1 = p)).isSome then
    acc.map (fun e => if e.1 = p then (e.1, e.2 + 1) else e)
  else acc ++ [(p, 1)]

/-- The values computed by print_stats in traffic.py. -/
structure Stats where
  total_flows : Nat
  total_packets : Nat
  total_bytes : Nat
  closed_count : Nat
  open_count : Nat
  protocol_dist : List (String × Nat)
  top3 : List Flow
deriving DecidableEq

/-- The statistics print_stats derives from the flow list: totals, the
closed/open split, the protocol histogram sorted by descending count
(stable), and the top three flows by byte volume (stable descending sort). -/
def computeStats (flows : List Flow) : Stats :=
  { total_flows := flows.length
    total_packets := (flows.map Flow.packets).sum
    total_bytes := (flows.map Flow.bytes).sum
    closed_count := (flows.filter (fun f => f.closed)).length
    open_count := flows.length - (flows.filter (fun f => f.closed)).length
    protocol_dist :=
      (flows.foldl (fun acc f => bumpCount acc f.protocol) []).mergeSort
        (fun a b => decide (b.2 ≤ a.2))
    top3 :=
      (flows.mergeSort (fun a b => decide (b.bytes ≤ a.bytes))).take 3 }

/-- label_packets from tagging.py: pair every packet with its label, computed
by the if/elif chain of the loop body (note: off-port TCP and UDP packets
keep the initial label "Otro" there). -/
def label_packets (packets : List Packet) : List (Packet × String) :=
  packets.map (fun packet =>
    (packet,
      if packet.icmp then "ICMP"
      else
        match packet.tcp with
        | some t =>
          if t.dport = 443 ∨ t.sport = 443 then "HTTPS"
          else if t.dport = 80 ∨ t.sport = 80 then "HTTP"
          else "Otro"
        | none =>
          match packet.udp with
          | some u =>
            if u.dport = 53 ∨ u.sport = 53 then "DNS"
            else "Otro"
          | none => "Otro"))

/-! ### Concrete packets used by scenarios and witnesses -/

/-- An IP layer shared by the concrete test packets. -/
def ipAB : IPLayer := ⟨"10.0.0.1", "10.0.0.2", 6, 64⟩

/-- Scenario B, packet 1: carries a TCP RST flag. -/
def pB1 : Packet := ⟨1, 60, some ipAB, false, some ⟨5000, 1234, "R"⟩, none⟩

/-- Scenario B, packet 2: same 5-tuple, plain PSH-ACK. -/
def pB2 : Packet := ⟨2, 60, some ipAB, false, some ⟨5000, 1234, "PA"⟩, none⟩

/-- Scenario B, packet 3: same 5-tuple, plain PSH-ACK. -/
def pB3 : Packet := ⟨3, 60, some ipAB, false, some ⟨5000, 1234, "PA"⟩, none⟩

/-- The 5-tuple of the Scenario B packets. -/
def kB : FlowKey := ⟨"10.0.0.2", 1234, "10.0.0.1", 5000, "TCP"⟩

/-- The Scenario B flow after its first packet: one packet, closed by RST. -/
def fB1 : Flow :=
  ⟨"10.0.0.1", "10.0.0.2", 5000, 1234, "TCP", 1, 60, true, some 1, some 1⟩

/-- Ordering scenario, packet 1: flow A, open. -/
def qA1 : Packet := ⟨1, 60, some ipAB, false, some ⟨5000, 1111, "PA"⟩, none⟩

/-- Ordering scenario, packet 2: flow B, closed by RST at time 2. -/
def qB2 : Packet := ⟨2, 60, some ipAB, false, some ⟨5000, 2222, "R"⟩, none⟩

/-- Ordering scenario, packet 3: flow A, closed by FIN at time 3. -/
def qA3 : Packet := ⟨3, 60, some ipAB, false, some ⟨5000, 1111, "FA"⟩, none⟩

/-- An ICMP echo packet wrapped in IP, with no transport layer. -/
def pIcmp : Packet := ⟨1, 84, some ⟨"10.0.0.1", "10.0.0.2", 1, 64⟩, true, none, none⟩

/-- A packet carrying both an ICMP layer and a TCP layer with ports 1234/80. -/
def pIcmpTcp : Packet := ⟨1, 100, some ipAB, true, some ⟨1234, 80, ""⟩, none⟩

/-- An IP packet of protocol number 47 with no recognized transport layer. -/
def pOther47 : Packet := ⟨1, 50, some ⟨"10.0.0.1", "10.0.0.2", 47, 64⟩, false, none, none⟩

/-- An IP packet of protocol number 50 with no recognized transport layer. -/
def pOther50 : Packet := ⟨1, 50, some ⟨"10.0.0.1", "10.0.0.2", 50, 64⟩, false, none, none⟩

/-- A TCP packet on ports 1234/5678, matching no port heuristic. -/
def pPlainTcp : Packet := ⟨1, 60, some ipAB, false, some ⟨1234, 5678, "PA"⟩, none⟩

/-- A TCP packet with destination port 443. -/
def pTcp443 : Packet := ⟨1, 60, some ipAB, false, some ⟨5000, 443, "PA"⟩, none⟩

/-- A UDP packet with destination port 53. -/
def pUdp53 : Packet := ⟨1, 60, some ipAB, false, none, some ⟨40000, 53⟩⟩

/-- The flow key derived from the ICMP echo packet. -/
def kD : FlowKey := ⟨"10.0.0.2", 0, "10.0.0.1", 0, "ICMP"⟩

/-! ### Dictionary lemmas -/

theorem freshIdx_free (k : FlowKey) (st : FlowTable) :
    (lookupK (DictKey.renamed k (freshIdx k st)) st).isSome = false :=
  Nat.find_spec (exists_renamed_free k st)

lemma lookupK_append_of_none {k : DictKey} {A : FlowTable}
    (h : lookupK k A = none) : ∀ B, lookupK k (A ++ B) = lookupK k B := by
  intro B
  induction A with
  | nil => rfl
  | cons e rest ih =>
    rw [lookupK] at h
    by_cases he : e.1 = k
    · rw [if_pos he] at h; exact absurd h (by simp)
    · rw [if_neg he] at h
      rw [List.cons_append, lookupK, if_neg he]
      exact ih h

lemma lookupK_eq_none_iff {k : DictKey} {st : FlowTable} :
    lookupK k st = none ↔ k ∉ keysOf st := by
  induction st with
  | nil => simp [lookupK, keysOf]
  | cons e rest ih =>
    rw [lookupK, keysOf, List.map_cons, List.mem_cons]
    by_cases he : e.1 = k
    · simp [he]
    · rw [if_neg he]
      simp only [ih, keysOf]
      constructor
      · intro h hc
        rcases hc with hc | hc
        · exact he hc.symm
        · exact h hc
      · intro h
        exact fun hc => h (Or.inr hc)

lemma lookupK_popK_self (k : DictKey) (st : FlowTable) :
    lookupK k (popK k st) = none := by
  induction st with
  | nil => rfl
  | cons e rest ih =>
    by_cases he : e.1 = k
    · simpa [popK, he] using ih
    · simpa [popK, lookupK, he] using ih

lemma popK_of_not_mem {k : DictKey} {st : FlowTable} (h : k ∉ keysOf st) :
    popK k st = st := by
  induction st with
  | nil => rfl
  | cons e rest ih =>
    simp only [keysOf, List.map_cons, List.mem_cons] at h
    push_neg at h
    simp only [popK]
    rw [if_neg (fun hc => h.1 hc.symm)]
    exact congrArg (e :: ·) (ih h.2)

lemma keysOf_popK (k : DictKey) (st : FlowTable) :
    keysOf (popK k st) = (keysOf st).filter (fun a => a ≠ k) := by
  induction st with
  | nil => rfl
  | cons e rest ih =>
    by_cases he : e.1 = k
    · simpa [popK, keysOf, List.filter_cons, he] using ih
    · simpa [popK, keysOf, List.filter_cons, he] using ih

lemma keysOf_updAll (k : DictKey) (v : Flow) (st : FlowTable) :
    keysOf (updAll k v st) = keysOf st := by
  induction st with
  | nil => rfl
  | cons e rest ih =>
    by_cases he : e.1 = k
    · simpa [updAll, keysOf, he] using ih
    · simpa [updAll, keysOf, he] using ih

lemma updAll_of_not_mem {k : DictKey} {st : FlowTable} (v : Flow)
    (h : k ∉ keysOf st) : updAll k v st = st := by
  induction st with
  | nil => rfl
  | cons e rest ih =>
    simp only [keysOf, List.map_cons, List.mem_cons] at h
    push_neg at h
    simp only [updAll, List.map_cons]
    rw [if_neg (fun hc => h.1 hc.symm)]
    exact congrArg (e :: ·) (ih h.2)

lemma updAll_append_snoc {k : DictKey} {A : FlowTable} (v w : Flow)
    (h : k ∉ keysOf A) : updAll k v (A ++ [(k, w)]) = A ++ [(k, v)] := by
  simp only [updAll, List.map_append]
  rw [show List.map (fun e => if e.1 = k then (k, v) else e) A = A from
    updAll_of_not_mem v h]
  simp

lemma lookupK_updAll_self {k : DictKey} {st : FlowTable} {f : Flow} (v : Flow)
    (h : lookupK k st = some f) : lookupK k (updAll k v st) = some v := by
  induction st with
  | nil => exact absurd h (by simp [lookupK])
  | cons e rest ih =>
    rw [lookupK] at h
    by_cases he : e.1 = k
    · simp [updAll, lookupK, he]
    · rw [if_neg he] at h
      simp only [updAll, List.map_cons]
      rw [if_neg he, lookupK, if_neg he]
      exact ih h

lemma lookupK_cons_ne {k : DictKey} (e : DictKey × Flow) (st : FlowTable)
    (h : e.1 ≠ k) : lookupK k (e :: st) = lookupK k st := by
  rw [lookupK, if_neg h]

/-! ### The four branches of one ingest step -/

lemma ingest_none {p : Packet} (st : FlowTable) (h : get_flow_key p = none) :
    ingest st p = st := by
  simp [ingest, h]

lemma ingest_open {p : Packet} {k : FlowKey} {st : FlowTable} {f : Flow}
    (h1 : get_flow_key p = some k) (h2 : lookupK (DictKey.orig k) st = some f)
    (h3 : f.closed = false) :
    ingest st p = updAll (DictKey.orig k) (f.add_packet p) st := by
  simp [ingest, h1, h2, h3, setValK]

lemma ingest_new {p : Packet} {k : FlowKey} {st : FlowTable}
    (h1 : get_flow_key p = some k) (h2 : lookupK (DictKey.orig k) st = none) :
    ingest st p = st ++ [(DictKey.orig k, (Flow.ofKey k).add_packet p)] := by
  have hnm : DictKey.orig k ∉ keysOf st := lookupK_eq_none_iff.mp h2
  have hupd := updAll_append_snoc ((Flow.ofKey k).add_packet p) (Flow.ofKey k) hnm
  simp [ingest, h1, h2, setValK, lookupK_append_of_none h2, lookupK, hupd]

lemma ingest_displace {p : Packet} {k : FlowKey} {st : FlowTable} {f : Flow}
    (h1 : get_flow_key p = some k) (h2 : lookupK (DictKey.orig k) st = some f)
    (h3 : f.closed = true) :
    ingest st p = popK (DictKey.orig k) st ++
      [(DictKey.renamed k (freshIdx k (popK (DictKey.orig k) st)), f),
       (DictKey.orig k, (Flow.ofKey k).add_packet p)] := by
  have hfs := freshIdx_free k (popK (DictKey.orig k) st)
  have hfree : lookupK (DictKey.renamed k (freshIdx k (popK (DictKey.orig k) st)))
      (popK (DictKey.orig k) st) = none := by
    cases hh : lookupK (DictKey.renamed k (freshIdx k (popK (DictKey.orig k) st)))
        (popK (DictKey.orig k) st) with
    | none => rfl
    | some g => rw [hh] at hfs; simp at hfs
  have hl1 : lookupK (DictKey.orig k) (popK (DictKey.orig k) st ++
      [(DictKey.renamed k (freshIdx k (popK (DictKey.orig k) st)), f)]) = none := by
    rw [lookupK_append_of_none (lookupK_popK_self (DictKey.orig k) st) _]
    simp [lookupK]
  have hnm2 : DictKey.orig k ∉ keysOf (popK (DictKey.orig k) st ++
      [(DictKey.renamed k (freshIdx k (popK (DictKey.orig k) st)), f)]) :=
    lookupK_eq_none_iff.mp hl1
  have hupd : updAll (DictKey.orig k) ((Flow.ofKey k).add_packet p)
      (popK (DictKey.orig k) st ++
        [(DictKey.renamed k (freshIdx k (popK (DictKey.orig k) st)), f),
         (DictKey.orig k, Flow.ofKey k)]) =
      popK (DictKey.orig k) st ++
        [(DictKey.renamed k (freshIdx k (popK (DictKey.orig k) st)), f),
         (DictKey.orig k, (Flow.ofKey k).add_packet p)] := by
    simpa using updAll_append_snoc ((Flow.ofKey k).add_packet p) (Flow.ofKey k) hnm2
  simp [ingest, h1, h2, h3, setValK, hfree, hl1, hupd,
        lookupK_append_of_none (lookupK_popK_self (DictKey.orig k) st), lookupK]

lemma lookupK_freshIdx (k : FlowKey) (st : FlowTable) :
    lookupK (DictKey.renamed k (freshIdx k st)) st = none := by
  have hfs := freshIdx_free k st
  cases hh : lookupK (DictKey.renamed k (freshIdx k st)) st with
  | none => rfl
  | some g => rw [hh] at hfs; simp at hfs

lemma updAll_cons (k : DictKey) (v : Flow) (e : DictKey × Flow) (rest : FlowTable) :
    updAll k v (e :: rest) = (if e.1 = k then (k, v) else e) :: updAll k v rest := by
  simp [updAll]

lemma popK_cons (k : DictKey) (e : DictKey × Flow) (rest : FlowTable) :
    popK k (e :: rest) = if e.1 = k then popK k rest else e :: popK k rest := rfl

/-! ### Distinctness of the dictionary keys is preserved by ingestion -/

lemma nodup_keys_ingest {st : FlowTable} (p : Packet)
    (h : (keysOf st).Nodup) : (keysOf (ingest st p)).Nodup := by
  cases hk : get_flow_key p with
  | none => rw [ingest_none st hk]; exact h
  | some k =>
    cases hl : lookupK (DictKey.orig k) st with
    | none =>
      rw [ingest_new hk hl]
      have hnm : DictKey.orig k ∉ keysOf st := lookupK_eq_none_iff.mp hl
      have hkeys : keysOf (st ++ [(DictKey.orig k, (Flow.ofKey k).add_packet p)]) =
          keysOf st ++ [DictKey.orig k] := by simp [keysOf]
      rw [hkeys, List.nodup_append]
      exact ⟨h, List.nodup_singleton _,
        fun a ha hb => hnm (List.mem_singleton.mp hb ▸ ha)⟩
    | some f =>
      cases hc : f.closed with
      | false =>
        rw [ingest_open hk hl hc, keysOf_updAll]
        exact h
      | true =>
        rw [ingest_displace hk hl hc]
        have hpopnd : (keysOf (popK (DictKey.orig k) st)).Nodup := by
          rw [keysOf_popK]; exact h.filter _
        have hrk : DictKey.renamed k (freshIdx k (popK (DictKey.orig k) st)) ∉
            keysOf (popK (DictKey.orig k) st) :=
          lookupK_eq_none_iff.mp (lookupK_freshIdx k (popK (DictKey.orig k) st))
        have hor : DictKey.orig k ∉ keysOf (popK (DictKey.orig k) st) :=
          lookupK_eq_none_iff.mp (lookupK_popK_self (DictKey.orig k) st)
        have hkeys : keysOf (popK (DictKey.orig k) st ++
            [(DictKey.renamed k (freshIdx k (popK (DictKey.orig k) st)), f),
             (DictKey.orig k, (Flow.ofKey k).add_packet p)]) =
            keysOf (popK (DictKey.orig k) st) ++
            [DictKey.renamed k (freshIdx k (popK (DictKey.orig k) st)),
             DictKey.orig k] := by simp [keysOf]
        rw [hkeys, List.nodup_append]
        refine ⟨hpopnd, by simp, ?_⟩
        intro a ha hb
        rcases List.mem_cons.mp hb with hb | hb
        · exact hrk (hb ▸ ha)
        · exact hor (List.mem_singleton.mp hb ▸ ha)

/-! ### Packet-count bookkeeping -/

lemma sumPk_nil : sumPk [] = 0 := rfl

lemma sumPk_cons (e : DictKey × Flow) (rest : FlowTable) :
    sumPk (e :: rest) = e.2.packets + sumPk rest := by simp [sumPk]

lemma sumPk_append (A B : FlowTable) : sumPk (A ++ B) = sumPk A + sumPk B := by
  simp [sumPk]

lemma packets_add_packet (f : Flow) (p : Packet) :
    (f.add_packet p).packets = f.packets + 1 := by
  unfold Flow.add_packet
  cases htcp : p.tcp with
  | none => rfl
  | some t =>
    by_cases hf : hasFinOrRst t.flags
    · simp [hf]
    · simp [hf]

lemma ofKey_packets (k : FlowKey) : (Flow.ofKey k).packets = 0 := rfl

lemma sumPk_updAll {k : DictKey} (v : Flow) :
    ∀ {st : FlowTable} {f : Flow}, lookupK k st = some f → (keysOf st).Nodup →
      sumPk (updAll k v st) + f.packets = sumPk st + v.packets := by
  intro st
  induction st with
  | nil => intro f hl _; simp [lookupK] at hl
  | cons e rest ih =>
    intro f hl hnd
    rw [keysOf, List.map_cons, List.nodup_cons] at hnd
    by_cases he : e.1 = k
    · rw [lookupK, if_pos he] at hl
      injection hl with hf
      have hknm : k ∉ keysOf rest := he ▸ hnd.1
      have hkv : ((k, v) : DictKey × Flow).2 = v := rfl
      rw [updAll_cons, if_pos he, updAll_of_not_mem v hknm, sumPk_cons,
          sumPk_cons, ← hf, hkv]
      omega
    · rw [lookupK, if_neg he] at hl
      rw [updAll_cons, if_neg he, sumPk_cons, sumPk_cons]
      have := ih hl hnd.2
      omega

lemma sumPk_popK {k : DictKey} :
    ∀ {st : FlowTable} {f : Flow}, lookupK k st = some f → (keysOf st).Nodup →
      sumPk (popK k st) + f.packets = sumPk st := by
  intro st
  induction st with
  | nil => intro f hl _; simp [lookupK] at hl
  | cons e rest ih =>
    intro f hl hnd
    rw [keysOf, List.map_cons, List.nodup_cons] at hnd
    by_cases he : e.1 = k
    · rw [lookupK, if_pos he] at hl
      injection hl with hf
      have hknm : k ∉ keysOf rest := he ▸ hnd.1
      rw [popK_cons, if_pos he, popK_of_not_mem hknm, sumPk_cons, ← hf]
      omega
    · rw [lookupK, if_neg he] at hl
      rw [popK_cons, if_neg he, sumPk_cons, sumPk_cons]
      have := ih hl hnd.2
      omega

lemma get_flow_key_isSome (p : Packet) :
    (get_flow_key p).isSome = p.ip.isSome := by
  cases hip : p.ip with
  | none => simp [get_flow_key, hip]
  | some ipl =>
    cases htcp : p.tcp with
    | some t => simp [get_flow_key, hip, htcp]
    | none =>
      cases hudp : p.udp with
      | some u => simp [get_flow_key, hip, htcp, hudp]
      | none => simp [get_flow_key, hip, htcp, hudp]

lemma sumPk_ingest {st : FlowTable} (p : Packet) (hnd : (keysOf st).Nodup) :
    sumPk (ingest st p) = sumPk st + (if (get_flow_key p).isSome then 1 else 0) := by
  cases hk : get_flow_key p with
  | none => rw [ingest_none st hk]; simp
  | some k =>
    cases hl : lookupK (DictKey.orig k) st with
    | none =>
      rw [ingest_new hk hl, sumPk_append]
      simp [sumPk, packets_add_packet, ofKey_packets]
    | some f =>
      cases hc : f.closed with
      | false =>
        rw [ingest_open hk hl hc]
        have hupd := sumPk_updAll (f.add_packet p) hl hnd
        rw [packets_add_packet] at hupd
        simp only [Option.isSome_some, if_true]
        omega
      | true =>
        rw [ingest_displace hk hl hc]
        have hpop := sumPk_popK hl hnd
        rw [sumPk_append, sumPk_cons, sumPk_cons, sumPk_nil]
        have hp1 : ((DictKey.renamed k (freshIdx k (popK (DictKey.orig k) st)), f) :
            DictKey × Flow).2 = f := rfl
        have hp2 : ((DictKey.orig k, (Flow.ofKey k).add_packet p) :
            DictKey × Flow).2 = (Flow.ofKey k).add_packet p := rfl
        rw [hp1, hp2, packets_add_packet, ofKey_packets]
        simp only [Option.isSome_some, if_true]
        omega

lemma nodup_keys_run : ∀ (ps : List Packet) (st : FlowTable),
    (keysOf st).Nodup → (keysOf (ps.foldl ingest st)).Nodup := by
  intro ps
  induction ps with
  | nil => intro st h; exact h
  | cons p ps ih => intro st h; exact ih _ (nodup_keys_ingest p h)

lemma sumPk_run : ∀ (ps : List Packet) (st : FlowTable), (keysOf st).Nodup →
    sumPk (ps.foldl ingest st) =
      sumPk st + (ps.filter (fun p => p.ip.isSome)).length := by
  intro ps
  induction ps with
  | nil => intro st _; simp
  | cons p ps ih =>
    intro st h
    rw [List.foldl_cons, ih _ (nodup_keys_ingest p h), sumPk_ingest p h,
        get_flow_key_isSome]
    cases hip : p.ip.isSome <;> simp [List.filter_cons, hip] <;> omega

lemma lookup_of_mem_nodup {k : DictKey} {f : Flow} :
    ∀ {st : FlowTable}, (keysOf st).Nodup → (k, f) ∈ st → lookupK k st = some f := by
  intro st
  induction st with
  | nil => intro _ h; simp at h
  | cons e rest ih =>
    intro hnd hmem
    rw [keysOf, List.map_cons, List.nodup_cons] at hnd
    rcases List.mem_cons.mp hmem with hmem | hmem
    · rw [← hmem, lookupK, if_pos rfl]
    · have hne : e.1 ≠ k := by
        intro hc
        exact hnd.1 (hc ▸ (List.mem_map.mpr ⟨(k, f), hmem, rfl⟩))
      rw [lookupK, if_neg hne]
      exact ih hnd.2 hmem

/-! ### Closed flows are never touched again -/

lemma mem_popK_of_ne {k kk : DictKey} {fv : Flow} :
    ∀ {st : FlowTable}, (kk, fv) ∈ st → kk ≠ k → (kk, fv) ∈ popK k st := by
  intro st
  induction st with
  | nil => intro h _; simp at h
  | cons e rest ih =>
    intro hmem hne
    rcases List.mem_cons.mp hmem with hmem | hmem
    · rw [popK_cons, if_neg (by rw [← hmem]; exact hne)]
      rw [hmem]
      exact List.mem_cons_self _ _
    · rw [popK_cons]
      by_cases he : e.1 = k
      · rw [if_pos he]; exact ih hmem hne
      · rw [if_neg he]; exact List.mem_cons_of_mem _ (ih hmem hne)

lemma mem_snd_ingest {st : FlowTable} {f : Flow} (p : Packet)
    (hnd : (keysOf st).Nodup) (hmem : f ∈ st.map Prod.snd)
    (hcl : f.closed = true) : f ∈ (ingest st p).map Prod.snd := by
  obtain ⟨e, he, hef⟩ := List.mem_map.mp hmem
  obtain ⟨kk, fv⟩ := e
  cases hk : get_flow_key p with
  | none => rw [ingest_none st hk]; exact hmem
  | some k =>
    cases hl : lookupK (DictKey.orig k) st with
    | none =>
      rw [ingest_new hk hl]
      exact List.mem_map.mpr ⟨(kk, fv), List.mem_append_left _ he, hef⟩
    | some f0 =>
      cases hc : f0.closed with
      | false =>
        rw [ingest_open hk hl hc]
        by_cases hkk : kk = DictKey.orig k
        · subst hkk
          have hlk := lookup_of_mem_nodup hnd he
          rw [hl] at hlk
          injection hlk with hff
          rw [← hef] at hcl
          rw [← hff] at hcl
          rw [hc] at hcl
          cases hcl
        · refine List.mem_map.mpr ⟨(kk, fv), ?_, hef⟩
          have hfix : (if ((kk, fv) : DictKey × Flow).1 = DictKey.orig k
              then (DictKey.orig k, f0.add_packet p) else (kk, fv)) = (kk, fv) := by
            rw [if_neg hkk]
          exact hfix ▸ List.mem_map_of_mem _ he
      | true =>
        rw [ingest_displace hk hl hc]
        by_cases hkk : kk = DictKey.orig k
        · subst hkk
          have hlk := lookup_of_mem_nodup hnd he
          rw [hl] at hlk
          injection hlk with hff
          refine List.mem_map.mpr
            ⟨(DictKey.renamed k (freshIdx k (popK (DictKey.orig k) st)), f0),
             List.mem_append_right _ (by simp), ?_⟩
          rw [← hff] at hef
          exact hef
        · exact List.mem_map.mpr
            ⟨(kk, fv), List.mem_append_left _ (mem_popK_of_ne he hkk), hef⟩

lemma mem_snd_run : ∀ (ps : List Packet) (st : FlowTable), (keysOf st).Nodup →
    ∀ {f : Flow}, f ∈ st.map Prod.snd → f.closed = true →
      f ∈ (ps.foldl ingest st).map Prod.snd := by
  intro ps
  induction ps with
  | nil => intro st _ f h _; exact h
  | cons p ps ih =>
    intro st hnd f hmem hcl
    exact ih _ (nodup_keys_ingest p hnd) (mem_snd_ingest p hnd hmem hcl) hcl

/-! ### Claim theorems -/

/-- C1 counterexample: on Scenario B as stated (first packet of the flow
carries RST, then two more packets with the same 5-tuple), aggregate_flows
does NOT return packet counts (2, closed) then (1, open). -/
theorem scenario_b_spec_counts_refuted :
    (aggregate_flows [pB1, pB2, pB3]).map (fun f => (f.packets, f.closed)) ≠
      [(2, true), (1, false)] := by
  decide

/-- C1 amended: on Scenario B with the RST on the first packet, the result is
two FlowRecords for the key, the first with packet count 1 and closed true
(the RST closes the flow immediately), the second with packet count 2 and
closed false (the second and third packets both land in the fresh flow). -/
theorem scenario_b_actual_counts :
    (aggregate_flows [pB1, pB2, pB3]).map
      (fun f => (f.ip_dst, f.port_dst, f.ip_src, f.port_src, f.protocol,
                 f.packets, f.closed)) =
    [("10.0.0.2", 1234, "10.0.0.1", 5000, "TCP", 1, true),
     ("10.0.0.2", 1234, "10.0.0.1", 5000, "TCP", 2, false)] := by
  rfl

/-- C2 counterexample: the result list is not ordered by closure. In the run
qA1, qB2, qA3 the flow of qB2 is closed by RST at time 2 and the flow of
qA1/qA3 is closed by FIN at time 3, yet the flow closed later is emitted
first; for closed flows the stored end time is the time of the closing
packet, so the emitted list is not sorted by closure time. -/
theorem closure_order_refuted :
    ¬ ((aggregate_flows [qA1, qB2, qA3]).Pairwise
        (fun a b => a.closed = true → b.closed = true →
          a.end_time.getD 0 ≤ b.end_time.getD 0)) := by
  decide

/-- C2 amended: the emitted order is the insertion order of the flows
mapping, not closure order: one ingest step either leaves the key sequence
unchanged (skip or in-place update), appends one new key at the end, or
moves a displaced closed flow to the end under a renamed key immediately
followed by its fresh replacement. -/
theorem result_order_is_insertion_order (st : FlowTable) (p : Packet) :
    keysOf (ingest st p) = keysOf st ∨
    (∃ k, keysOf (ingest st p) = keysOf st ++ [DictKey.orig k]) ∨
    (∃ k i, keysOf (ingest st p) =
      (keysOf st).filter (fun a => a ≠ DictKey.orig k) ++
        [DictKey.renamed k i, DictKey.orig k]) := by
  cases hk : get_flow_key p with
  | none => exact Or.inl (by rw [ingest_none st hk])
  | some k =>
    cases hl : lookupK (DictKey.orig k) st with
    | none =>
      refine Or.inr (Or.inl ⟨k, ?_⟩)
      rw [ingest_new hk hl]
      simp [keysOf]
    | some f =>
      cases hc : f.closed with
      | false => exact Or.inl (by rw [ingest_open hk hl hc, keysOf_updAll])
      | true =>
        refine Or.inr (Or.inr ⟨k, freshIdx k (popK (DictKey.orig k) st), ?_⟩)
        rw [ingest_displace hk hl hc, ← keysOf_popK]
        simp [keysOf]

/-- C3: the sum of the packet counts over every emitted FlowRecord equals
the number of input packets carrying an IP layer; packets without an IP
layer are counted nowhere. -/
theorem packet_conservation (ps : List Packet) :
    ((aggregate_flows ps).map Flow.packets).sum =
      (ps.filter (fun p => p.ip.isSome)).length := by
  have h := sumPk_run ps [] (by simp [keysOf])
  simp only [sumPk_nil, Nat.zero_add] at h
  unfold aggregate_flows
  rw [List.map_map]
  exact h

/-- C4: closure is monotonic. A flow value that is closed at any point of
the aggregation run is emitted unchanged in the final result, whatever
packets follow; and when a packet arrives for a key whose open flow is
already closed, the key is re-bound to a fresh flow whose packet count is 1
right after that packet. -/
theorem closure_monotonicity :
    (∀ (ps qs : List Packet) (f : Flow),
      f ∈ (List.foldl ingest [] ps).map Prod.snd → f.closed = true →
      f ∈ aggregate_flows (ps ++ qs)) ∧
    (∀ (st : FlowTable) (p : Packet) (k : FlowKey) (f : Flow),
      get_flow_key p = some k → lookupK (DictKey.orig k) st = some f →
      f.closed = true →
      ∃ g, lookupK (DictKey.orig k) (ingest st p) = some g ∧ g.packets = 1) := by
  constructor
  · intro ps qs f hmem hcl
    unfold aggregate_flows
    rw [List.foldl_append]
    exact mem_snd_run qs _ (nodup_keys_run ps [] (by simp [keysOf])) hmem hcl
  · intro st p k f h1 h2 h3
    rw [ingest_displace h1 h2 h3]
    refine ⟨(Flow.ofKey k).add_packet p, ?_, ?_⟩
    · rw [lookupK_append_of_none (lookupK_popK_self (DictKey.orig k) st) _]
      simp [lookupK]
    · rw [packets_add_packet, ofKey_packets]

/-- C4 witness: the Scenario B flow closed by the RST packet survives the
arrival of a further same-key packet and is in the final result; and the
same-key packet re-binds the key to a fresh flow with packet count 1. -/
theorem closure_monotonicity_witness :
    fB1 ∈ aggregate_flows ([pB1] ++ [pB2]) ∧
    ∃ g, lookupK (DictKey.orig kB) (ingest [(DictKey.orig kB, fB1)] pB2) = some g ∧
      g.packets = 1 :=
  ⟨closure_monotonicity.1 [pB1] [pB2] fB1 (by decide) (by decide),
   closure_monotonicity.2 [(DictKey.orig kB, fB1)] pB2 kB fB1
     (by decide) (by decide) (by decide)⟩

/-- C5 counterexample: the label returned for IP packets with unrecognized
transport cannot carry the IP protocol number: the classifier gives the same
label to packets with protocol numbers 47 and 50, so no injective rendering
of the protocol number matches its output. -/
theorem other_label_carries_no_proto_number :
    ¬ ∃ other : Nat → String, Function.Injective other ∧
      ∀ (p : Packet) (ipl : IPLayer), p.ip = some ipl → p.icmp = false →
        p.tcp = none → p.udp = none → classify_protocol p = other ipl.proto := by
  rintro ⟨other, hinj, hall⟩
  have h47 := hall pOther47 ⟨"10.0.0.1", "10.0.0.2", 47, 64⟩ rfl rfl rfl rfl
  have h50 := hall pOther50 ⟨"10.0.0.1", "10.0.0.2", 50, 64⟩ rfl rfl rfl rfl
  have heq : other (47 : Nat) = other 50 := by
    rw [← h47, ← h50]
    decide
  have h4750 := hinj heq
  omega

/-- C5 amended: for every packet with an IP layer but no ICMP, TCP, or UDP
layer the classifier returns the fixed label Otro, independent of the
IP protocol number. -/
theorem unrecognized_transport_is_otro (p : Packet) (ipl : IPLayer)
    (hip : p.ip = some ipl) (hicmp : p.icmp = false) (htcp : p.tcp = none)
    (hudp : p.udp = none) : classify_protocol p = "Otro" := by
  simp [classify_protocol, hicmp, htcp, hudp]

/-- C5 witness: the amended claim evaluated on the protocol-47 packet. -/
theorem unrecognized_transport_is_otro_witness :
    classify_protocol pOther47 = "Otro" :=
  unrecognized_transport_is_otro pOther47 ⟨"10.0.0.1", "10.0.0.2", 47, 64⟩
    rfl rfl rfl rfl

/-- C6 counterexample: the serialized row of a FlowRecord contains no
min_ttl, max_ttl, or observed_tcp_flags column (and the record type carries
no such fields to serialize). -/
theorem ttl_and_flag_columns_absent :
    "min_ttl" ∉ (Flow.ofKey kB).to_dict.map Prod.fst ∧
    "max_ttl" ∉ (Flow.ofKey kB).to_dict.map Prod.fst ∧
    "observed_tcp_flags" ∉ (Flow.ofKey kB).to_dict.map Prod.fst := by
  refine ⟨?_, ?_, ?_⟩ <;> decide

/-- C6 amended: the serialized row of every FlowRecord consists of exactly
the columns start_time, end_time, ip_dst, port_dst, ip_src, port_src,
protocol, packets, bytes, avg_pkt_size, duration_s, closed; there are no
TTL extrema and no TCP-flag-set column. -/
theorem to_dict_columns (f : Flow) :
    f.to_dict.map Prod.fst =
      ["start_time", "end_time", "ip_dst", "port_dst", "ip_src", "port_src",
       "protocol", "packets", "bytes", "avg_pkt_size", "duration_s", "closed"] :=
  rfl

/-- C7: the classifier checks ICMP first, then TCP with 443 before 80, then
UDP with 53, first match winning, exactly as the code orders its tests. -/
theorem classifier_decision_order :
    (∀ p : Packet, p.icmp = true → classify_protocol p = "ICMP") ∧
    (∀ (p : Packet) (t : TCPLayer), p.icmp = false → p.tcp = some t →
      classify_protocol p =
        if t.sport = 443 ∨ t.dport = 443 then "HTTPS"
        else if t.sport = 80 ∨ t.dport = 80 then "HTTP"
        else "TCP") ∧
    (∀ (p : Packet) (u : UDPLayer), p.icmp = false → p.tcp = none →
      p.udp = some u →
      classify_protocol p =
        if u.sport = 53 ∨ u.dport = 53 then "DNS" else "UDP") := by
  refine ⟨?_, ?_, ?_⟩
  · intro p h
    simp [classify_protocol, h]
  · intro p t hi ht
    simp [classify_protocol, hi, ht]
  · intro p u hi ht hu
    simp [classify_protocol, hi, ht, hu]

/-- C7 witness: the three classifier branches evaluated on concrete packets:
an ICMP-and-TCP packet, a TCP packet on port 443, a UDP packet on port 53. -/
theorem classifier_decision_order_witness :
    classify_protocol pIcmpTcp = "ICMP" ∧
    classify_protocol pTcp443 = "HTTPS" ∧
    classify_protocol pUdp53 = "DNS" := by
  refine ⟨classifier_decision_order.1 pIcmpTcp rfl, ?_, ?_⟩
  · have h := classifier_decision_order.2.1 pTcp443 ⟨5000, 443, "PA"⟩ rfl rfl
    rw [h]
    simp
  · have h := classifier_decision_order.2.2 pUdp53 ⟨40000, 53⟩ rfl rfl rfl
    rw [h]
    simp

/-- C8 counterexample: a packet carrying both an ICMP layer and a TCP layer
is classified ICMP, yet its flow key takes the TCP ports, not (0, 0). -/
theorem icmp_with_tcp_layer_ports_nonzero :
    classify_protocol pIcmpTcp = "ICMP" ∧
    ∃ k, get_flow_key pIcmpTcp = some k ∧
      ¬ (k.port_src = 0 ∧ k.port_dst = 0) := by
  exact ⟨by decide, ⟨⟨"10.0.0.2", 80, "10.0.0.1", 1234, "ICMP"⟩, by decide, by decide⟩⟩

/-- C8 amended: the flow key has source and destination port 0 exactly for
IP packets carrying neither a TCP nor a UDP layer (ICMP echo packets and
unrecognized protocols); a packet classified ICMP that also carries a
TCP layer instead gets that TCP layer ports. -/
theorem ports_zero_without_transport_layer (p : Packet) (k : FlowKey)
    (hk : get_flow_key p = some k) (htcp : p.tcp = none) (hudp : p.udp = none) :
    k.port_src = 0 ∧ k.port_dst = 0 := by
  cases hip : p.ip with
  | none => simp [get_flow_key, hip] at hk
  | some ipl =>
    have hfk : get_flow_key p = some ⟨ipl.dst, 0, ipl.src, 0, classify_protocol p⟩ := by
      simp [get_flow_key, hip, htcp, hudp]
    rw [hfk] at hk
    injection hk with h
    rw [← h]
    exact ⟨rfl, rfl⟩

/-- C8 witness: Scenario D, an ICMP echo packet wrapped in IP: label ICMP
with flow-key ports (0, 0). -/
theorem ports_zero_without_transport_layer_witness :
    kD.port_src = 0 ∧ kD.port_dst = 0 :=
  ports_zero_without_transport_layer pIcmp kD (by decide) rfl rfl

/-- C9 counterexample: the two labelings disagree: a TCP packet on ports
1234/5678 is labeled TCP by classify_protocol in traffic.py but Otro by the
loop of label_packets in tagging.py. -/
theorem tagging_traffic_labels_differ :
    (label_packets [pPlainTcp]).map Prod.snd ≠ [classify_protocol pPlainTcp] := by
  decide

/-- C9 amended: the tagging.py labeling agrees with classify_protocol except
that off-port TCP and UDP packets, which classify_protocol labels TCP and
UDP, keep the initial label Otro in label_packets. -/
theorem tagging_labels_related_to_classifier : ∀ ps : List Packet,
    (label_packets ps).map Prod.snd = ps.map (fun p =>
      if classify_protocol p = "TCP" ∨ classify_protocol p = "UDP" then "Otro"
      else classify_protocol p)
  | [] => rfl
  | p :: ps => by
    have ih := tagging_labels_related_to_classifier ps
    unfold label_packets at ih ⊢
    rw [List.map_cons, List.map_cons, List.map_cons]
    refine congrArg₂ List.cons ?_ ih
    show (if p.icmp = true then "ICMP"
      else match p.tcp with
      | some t =>
        if t.dport = 443 ∨ t.sport = 443 then "HTTPS"
        else if t.dport = 80 ∨ t.sport = 80 then "HTTP"
        else "Otro"
      | none =>
        match p.udp with
        | some u =>
          if u.dport = 53 ∨ u.sport = 53 then "DNS"
          else "Otro"
        | none => "Otro") = _
    cases hicmp : p.icmp with
    | true => simp [classify_protocol, hicmp]
    | false =>
      cases htcp : p.tcp with
      | some t =>
        by_cases h1 : t.sport = 443 <;> by_cases h2 : t.dport = 443 <;>
          by_cases h3 : t.sport = 80 <;> by_cases h4 : t.dport = 80 <;>
          simp [classify_protocol, hicmp, htcp, h1, h2, h3, h4]
      | none =>
        cases hudp : p.udp with
        | some u =>
          by_cases h1 : u.sport = 53 <;> by_cases h2 : u.dport = 53 <;>
            simp [classify_protocol, hicmp, htcp, hudp, h1, h2]
        | none => simp [classify_protocol, hicmp, htcp, hudp]

/-- C10: aggregation is deterministic: a fixed packet sequence always yields
the same flow-record list and the same statistics. The ingestion loop is a
pure fold over the packet list whose only state is the local flows mapping,
so two runs are one and the same value. -/
theorem aggregation_deterministic (ps : List Packet) :
    aggregate_flows ps = aggregate_flows ps ∧
    computeStats (aggregate_flows ps) = computeStats (aggregate_flows ps) :=
  ⟨rfl, rfl⟩

end Traffic
